import Mathlib

/-!
Shallow embedding of `src/src/Backup-Replication.py`.

Files are modelled as an association list from file name to file data; the
source directory and the file-server directory are separate maps, because the
script always joins one fixed directory path to a bare file name, so the name
is the only varying part.  Compression, copying, file removal and email
sending can each raise an exception at runtime; a `Faults` record of switches
stands for which of those operations would raise on this run.  `sys.exit(1)`
(the script aliases `exit = sys.exit`) raises `SystemExit`, which is not
caught by `except Exception` but still runs the `finally` block; the embedding
threads a pending exit code through the `finally` block accordingly.

Python scoping note: the script mutates a module-global flag
`process_success`.  Assignments to it at module level (missing mapping,
missing file, the top-level `except` handler, the cleanup handler) rebind the
global and are modelled as updates of `St.flag`.  Assignments inside the
function bodies of `send_email` and `delete_next_backups` create fresh
function-local bindings (no `global` declaration) and never reach the module
scope; the embedding therefore drops them, exactly as CPython does.
-/

namespace BackupRep

/-- Contents of one file.  The script only ever creates single-entry zip
archives (`zipf.write(file_path, arcname=file_name)`), so an archive is the
arcname plus the archived bytes; `zippedEmpty` stands for the file that
`zipfile.ZipFile(path, "w")` has created on open when the subsequent write
raised. -/
inductive FileData where
  | plain : String → FileData
  | zipped : String → String → FileData
  | zippedEmpty : FileData
deriving DecidableEq

/-- Raw byte content of a file, as read when the file is compressed. -/
def bytesOf : FileData → String
  | FileData.plain c => c
  | FileData.zipped a c => "PK(" ++ a ++ "," ++ c ++ ")"
  | FileData.zippedEmpty => "PK()"

/-- One directory, as a finite map from file name to file data. -/
def FS : Type := List (String × FileData)

instance : DecidableEq FS := by unfold FS; infer_instance

/-- Membership test and read used for `os.path.exists` plus the read that
compression performs. -/
def lookupFS : FS → String → Option FileData
  | [], _ => none
  | (k, v) :: rest, n => if k = n then some v else lookupFS rest n

/-- Writing (creating or overwriting) a file, as `zipfile` or `shutil.copy`
does. -/
def setFS : FS → String → FileData → FS
  | [], n, v => [(n, v)]
  | (k, w) :: rest, n, v => if k = n then (k, v) :: rest else (k, w) :: setFS rest n v

/-- `os.remove`. -/
def eraseFS : FS → String → FS
  | [], _ => []
  | (k, w) :: rest, n => if k = n then eraseFS rest n else (k, w) :: eraseFS rest n

/-- `os.path.join(directory, name)` as used for message text. -/
def joinPath (d n : String) : String := d ++ "/" ++ n

/-- Index of the last dot in a name, for `os.path.splitext`. -/
def lastDotIdx : List Char → Option Nat
  | [] => none
  | c :: rest =>
    (lastDotIdx rest).elim (if c = '.' then some 0 else none) (fun i => some (i + 1))

/-- `os.path.splitext(name)[0]`: cut at the last dot, unless every character
before that dot is itself a dot (CPython keeps names such as `.bashrc`
whole). -/
def splitextStem (s : String) : String :=
  (lastDotIdx s.data).elim s (fun i =>
    if (s.data.take i).any (fun c => !(c == '.')) then String.mk (s.data.take i) else s)

/-- `zip_file_name = f"{name_without_extension}.zip"` (lines 111 to 112). -/
def zipNameOf (fn : String) : String := splitextStem fn ++ ".zip"

/-- `FILES_MAP.get(day)` combined with the truthiness test `if next_file_name:`
(and `if not file_name:`): a missing key and an empty string are both
falsy. -/
def falsyGet (m : String → Option String) (k : String) : Option String :=
  (m k).elim none (fun s => if s = "" then none else some s)

/-- The canonical 7-name ordering from line 70 of the script. -/
def days_of_week : List String :=
  ["Sunday", "Monday", "Tuesday", "Wednesday", "Thursday", "Friday", "Saturday"]

/-- `list.index`: position of the first occurrence, `none` where Python would
raise `ValueError`. -/
def listIndex (x : String) : List String → Option Nat
  | [] => none
  | y :: ys => if y = x then some 0 else (listIndex x ys).elim none (fun i => some (i + 1))

/-- `get_next_days` (lines 69 to 72): the names of the next `days_ahead` days
of the week after `day_name`, wrapping modulo 7; `none` models the
`ValueError` that `days_of_week.index` raises for a non-canonical name. -/
def get_next_days (day_name : String) (days_ahead : Nat) : Option (List String) :=
  (listIndex day_name days_of_week).elim none (fun start =>
    some ((List.range days_ahead).map (fun i => days_of_week.getD ((start + (i + 1)) % 7) "")))

/-- An attempted notification: `send_email` builds the message from subject
and body; `delivered = false` records that the SMTP send raised (the handler
at lines 61 to 63 swallows the exception). -/
structure EmailMsg where
  subject : String
  body : String
  delivered : Bool
deriving DecidableEq

/-- The mutable world of one run: source directory, file-server directory,
the sequence of attempted notifications, the module-global `process_success`
flag, and a counter numbering email attempts. -/
structure St where
  src : FS
  server : FS
  emails : List EmailMsg
  flag : Bool
  ctr : Nat

/-- Which runtime operations raise on this run.  `removeFails n` covers
`os.remove` on the file named `n` (both in `delete_next_backups` and in the
cleanup block); `emailFails k` covers the k-th `server.sendmail` call. -/
structure Faults where
  compressFails : Bool
  copyFails : Bool
  removeFails : String → Bool
  emailFails : Nat → Bool

/-- The run with no runtime failures. -/
def noFaults : Faults :=
  { compressFails := false, copyFails := false
    removeFails := fun _ => false, emailFails := fun _ => false }

/-- The configuration values read from `config.json` that the workflow
consults (lines 23 to 28; the log directory and SMTP settings do not affect
the modelled state). -/
structure Config where
  sourceDirectory : String
  fileServerDirectory : String
  filesMap : String → Option String
  daysToDelete : Nat

/-- `send_email` (lines 47 to 63): appends one attempted notification.  On
an SMTP failure the function assigns `process_success = False`, but that
binding is local to `send_email` and is discarded, so the global flag is left
untouched. -/
def sendEmail (f : Faults) (subj bod : String) (s : St) : St :=
  { s with emails := s.emails ++ [⟨subj, bod, !(f.emailFails s.ctr)⟩], ctr := s.ctr + 1 }

def subjFail (day : String) : String := "Backup Process Failed for " ++ day

def bodyNoFile (day : String) : String :=
  "No file configured for " ++ day ++ ". Please check the config file."

def bodyMissing (srcDir fn day : String) : String :=
  "File " ++ fn ++ " not found for " ++ day ++ " in " ++ srcDir ++ ". Process aborted."

/-- Body of the notification sent by the top-level `except` handler; the
exception text and traceback are elided. -/
def bodyExcept : String := "An error occurred during the process."

def subjDelFail (day : String) : String := "Backup Deletion Failed for " ++ day

/-- Body of the deletion-failure notification; the exception text is
elided. -/
def bodyDelFail (path : String) : String := "Failed to delete backup file " ++ path ++ "."

def subjCleanup (day : String) : String := "Backup Cleanup Error for " ++ day

def bodyCleanup : String := "Error during cleanup."

def subjSuccess (day : String) : String := "Backup Process Successful for " ++ day

def bodySuccess (fn : String) : String :=
  "The backup file " ++ fn ++
    " was successfully compressed, transferred, and old backups deleted."

/-- The for-loop of `delete_next_backups` (lines 76 to 92).  A day with no
truthy mapping or whose mapped file does not exist is skipped; a failing
`os.remove` logs, sends a notification and calls `exit(1)` — the Bool result
records whether that `SystemExit` was raised.  The `process_success = False`
on line 87 is local to the function and dropped. -/
def deleteLoop (cfg : Config) (f : Faults) : List String → St → St × Bool
  | [], s => (s, false)
  | day :: rest, s =>
    (falsyGet cfg.filesMap day).elim (deleteLoop cfg f rest s) (fun n =>
      (lookupFS s.src n).elim (deleteLoop cfg f rest s) (fun _ =>
        if f.removeFails n then
          (sendEmail f (subjDelFail day) (bodyDelFail (joinPath cfg.sourceDirectory n)) s, true)
        else
          deleteLoop cfg f rest { s with src := eraseFS s.src n }))

/-- Outcome of `delete_next_backups`: normal return, `SystemExit` from
`exit(1)`, or an ordinary exception (the `ValueError` that
`days_of_week.index` raises for a non-canonical day name, which the caller
catches with `except Exception`). -/
inductive DelOutcome where
  | ok
  | exited
  | raised
deriving DecidableEq

/-- `delete_next_backups` (lines 74 to 92). -/
def delete_next_backups (cfg : Config) (f : Faults) (current_day : String)
    (days_to_delete : Nat) (s : St) : St × DelOutcome :=
  (get_next_days current_day days_to_delete).elim (s, DelOutcome.raised) (fun ds =>
    let r := deleteLoop cfg f ds s
    (r.1, if r.2 then DelOutcome.exited else DelOutcome.ok))

/-- The top-level `except Exception` handler (lines 141 to 150): log, clear
the global flag, notify, `exit(1)`. -/
def exceptPath (f : Faults) (day : String) (s : St) : St × Option Nat :=
  (sendEmail f (subjFail day) bodyExcept { s with flag := false }, some 1)

/-- The archive the compression step produces at `zip_file_path` (lines 121
to 122).  `zipfile.ZipFile(zip_file_path, "w")` creates (truncates) the file
at `zip_file_path` before `zipf.write(file_path, arcname=file_name)` reads
`file_path`; when the two paths coincide — a source file already named
`*.zip`, so that `name_without_extension + ".zip"` equals the file name —
the bytes read are those of the freshly truncated archive container, not the
original contents of the source file. -/
def compressedData (zn fn : String) (fd : FileData) : FileData :=
  if zn = fn then FileData.zipped fn (bytesOf FileData.zippedEmpty)
  else FileData.zipped fn (bytesOf fd)

/-- The body of the `try` block (lines 115 to 150), already folded with the
`except` handler.  The second component is the exit code pending when control
enters the `finally` block (`exit(1)` raises `SystemExit`, which skips the
rest of the `try` statement but not its `finally`). -/
def mainTry (cfg : Config) (f : Faults) (day fn zipName : String) (s : St) :
    St × Option Nat :=
  (lookupFS s.src fn).elim
    (sendEmail f (subjFail day) (bodyMissing cfg.sourceDirectory fn day)
        { s with flag := false },
      some 1)
    (fun fd =>
      if f.compressFails then
        exceptPath f day { s with src := setFS s.src zipName FileData.zippedEmpty }
      else
        let z := compressedData zipName fn fd
        let s1 : St := { s with src := setFS s.src zipName z }
        if f.copyFails then exceptPath f day s1
        else
          let s2 : St := { s1 with server := setFS s1.server zipName z }
          match delete_next_backups cfg f day cfg.daysToDelete s2 with
          | (s3, DelOutcome.raised) => exceptPath f day s3
          | (s3, DelOutcome.exited) => (s3, some 1)
          | (s3, DelOutcome.ok) => (s3, none))

/-- Observable outcome of one run: the process exit code, the two
directories, and the attempted notifications. -/
structure RunResult where
  exitCode : Nat
  src : FS
  server : FS
  emails : List EmailMsg
deriving DecidableEq

/-- The tail of the `finally` block (lines 168 to 173): send the success
notification when the global flag was never cleared, then let any pending
`SystemExit` produce the exit code. -/
def successNotify (f : Faults) (day fn : String) (s : St) (pending : Option Nat) :
    RunResult :=
  let s1 := if s.flag then sendEmail f (subjSuccess day) (bodySuccess fn) s else s
  ⟨pending.getD 0, s1.src, s1.server, s1.emails⟩

/-- The `finally` block (lines 152 to 173): remove the temporary archive if
it exists; a failing removal clears the flag, notifies and raises a fresh
`exit(1)` that replaces any pending exit and skips the success check. -/
def finallyBlock (f : Faults) (day fn zipName : String) (sp : St × Option Nat) :
    RunResult :=
  (lookupFS sp.1.src zipName).elim
    (successNotify f day fn sp.1 sp.2)
    (fun _ =>
      if f.removeFails zipName then
        let s2 := sendEmail f (subjCleanup day) bodyCleanup { sp.1 with flag := false }
        ⟨1, s2.src, s2.server, s2.emails⟩
      else
        successNotify f day fn { sp.1 with src := eraseFS sp.1.src zipName } sp.2)

/-- State at script start: `process_success = True`, no emails attempted. -/
def initialState (fs0 srv0 : FS) : St := ⟨fs0, srv0, [], true, 0⟩

/-- The whole script for one run (lines 94 to 173), parameterised by the
current weekday name, the initial source directory and the initial
file-server directory.  A falsy mapping for today exits at line 108, before
the `try` statement, so no cleanup and no success check happen on that
path. -/
def runBackup (cfg : Config) (f : Faults) (day : String) (fs0 srv0 : FS) : RunResult :=
  (falsyGet cfg.filesMap day).elim
    (let s2 := sendEmail f (subjFail day) (bodyNoFile day)
        { initialState fs0 srv0 with flag := false }
     ⟨1, s2.src, s2.server, s2.emails⟩)
    (fun fn =>
      finallyBlock f day fn (zipNameOf fn)
        (mainTry cfg f day fn (zipNameOf fn) (initialState fs0 srv0)))

/-! Helper lemmas about the directory maps. -/

theorem lookupFS_setFS_self (l : FS) (n : String) (v : FileData) :
    lookupFS (setFS l n v) n = some v := by
  induction l with
  | nil => simp [setFS, lookupFS]
  | cons p rest ih =>
    obtain ⟨k, w⟩ := p
    by_cases h : k = n
    · simp [setFS, lookupFS, h]
    · simp [setFS, lookupFS, h, ih]

theorem lookupFS_setFS_ne (l : FS) (n m : String) (v : FileData) (h : m ≠ n) :
    lookupFS (setFS l n v) m = lookupFS l m := by
  have h2 : n ≠ m := Ne.symm h
  induction l with
  | nil => simp [setFS, lookupFS, h2]
  | cons p rest ih =>
    obtain ⟨k, w⟩ := p
    by_cases hk : k = n
    · subst hk
      simp [setFS, lookupFS, h2]
    · simp [setFS, lookupFS, hk, ih]

theorem lookupFS_eraseFS_self (l : FS) (n : String) :
    lookupFS (eraseFS l n) n = none := by
  induction l with
  | nil => simp [eraseFS, lookupFS]
  | cons p rest ih =>
    obtain ⟨k, w⟩ := p
    by_cases h : k = n
    · simp [eraseFS, lookupFS, h, ih]
    · simp [eraseFS, lookupFS, h, ih]

theorem lookupFS_eraseFS_ne (l : FS) (n m : String) (h : m ≠ n) :
    lookupFS (eraseFS l n) m = lookupFS l m := by
  have h2 : n ≠ m := Ne.symm h
  induction l with
  | nil => simp [eraseFS, lookupFS]
  | cons p rest ih =>
    obtain ⟨k, w⟩ := p
    by_cases hk : k = n
    · subst hk
      simp [eraseFS, lookupFS, h2, ih]
    · simp [eraseFS, lookupFS, hk, ih]

theorem eraseFS_lookup_none (l : FS) (n : String) (h : lookupFS l n = none) :
    eraseFS l n = l := by
  induction l with
  | nil => rfl
  | cons p rest ih =>
    obtain ⟨k, w⟩ := p
    by_cases hk : k = n
    · simp [lookupFS, hk] at h
    · simp [lookupFS, hk] at h
      simp [eraseFS, hk, ih h]

theorem listIndex_eq_none (x : String) (l : List String) (h : x ∉ l) :
    listIndex x l = none := by
  induction l with
  | nil => rfl
  | cons y ys ih =>
    simp only [List.mem_cons, not_or] at h
    simp [listIndex, Ne.symm h.1, ih h.2]

/-! Characterisations used to state the claims about `get_next_days`. -/

/-- The canonical successor of a weekday name, wrapping Saturday to Sunday. -/
def nextInWeek (d : String) : Option String :=
  (listIndex d days_of_week).elim none (fun i => some (days_of_week.getD ((i + 1) % 7) ""))

/-- A list is a chain of consecutive canonical weekday names. -/
def chainNext : List String → Bool
  | [] => true
  | [_] => true
  | a :: b :: rest => (nextInWeek a == some b) && chainNext (b :: rest)

/-- The property claimed of `get_next_days W D`: a defined result of length
`D`, starting at the canonical successor of `W`, consecutive with wraparound,
and containing `W` exactly when `D = 7`. -/
def nextDaysOk (W : String) (D : Nat) : Bool :=
  match get_next_days W D with
  | none => false
  | some l =>
    (l.length == D) && (l.head? == nextInWeek W) && chainNext l &&
      (if D == 7 then l.contains W else !(l.contains W))

/-! Structure of the retention-deletion loop. -/

theorem deleteLoop_append (cfg : Config) (f : Faults) (l1 l2 : List String) (s : St) :
    deleteLoop cfg f (l1 ++ l2) s =
      if (deleteLoop cfg f l1 s).2 then deleteLoop cfg f l1 s
      else deleteLoop cfg f l2 (deleteLoop cfg f l1 s).1 := by
  induction l1 generalizing s with
  | nil => simp [deleteLoop]
  | cons d rest ih =>
    cases hm : falsyGet cfg.filesMap d with
    | none => simpa [deleteLoop, hm] using ih s
    | some n =>
      cases hl : lookupFS s.src n with
      | none => simpa [deleteLoop, hm, hl] using ih s
      | some fd =>
        by_cases hr : f.removeFails n
        · simp [deleteLoop, hm, hl, hr]
        · simpa [deleteLoop, hm, hl, hr] using ih _

/-- When no removal fault can fire, the loop never exits, touches only the
source directory, and its effect on the source directory is the deletion of
exactly the existing files mapped to a day of the list. -/
theorem deleteLoop_removeOk (cfg : Config) (f : Faults)
    (hrm : ∀ n, f.removeFails n = false) (days : List String) (s : St) :
    (deleteLoop cfg f days s).2 = false ∧
    (deleteLoop cfg f days s).1.server = s.server ∧
    (deleteLoop cfg f days s).1.emails = s.emails ∧
    (deleteLoop cfg f days s).1.flag = s.flag ∧
    (deleteLoop cfg f days s).1.ctr = s.ctr ∧
    ∀ m, lookupFS (deleteLoop cfg f days s).1.src m =
      if ∃ d2 ∈ days, falsyGet cfg.filesMap d2 = some m then none
      else lookupFS s.src m := by
  induction days generalizing s with
  | nil => simp [deleteLoop]
  | cons d rest ih =>
    cases hm : falsyGet cfg.filesMap d with
    | none =>
      have h2 := ih s
      refine ⟨by simpa [deleteLoop, hm] using h2.1, by simpa [deleteLoop, hm] using h2.2.1,
        by simpa [deleteLoop, hm] using h2.2.2.1, by simpa [deleteLoop, hm] using h2.2.2.2.1,
        by simpa [deleteLoop, hm] using h2.2.2.2.2.1, ?_⟩
      intro m
      have h3 := h2.2.2.2.2.2 m
      have hne : ¬ falsyGet cfg.filesMap d = some m := by simp [hm]
      simp only [deleteLoop, hm, Option.elim] at h3 ⊢
      simpa [List.exists_mem_cons_iff, hne] using h3
    | some n =>
      cases hl : lookupFS s.src n with
      | none =>
        have h2 := ih s
        refine ⟨by simpa [deleteLoop, hm, hl] using h2.1,
          by simpa [deleteLoop, hm, hl] using h2.2.1,
          by simpa [deleteLoop, hm, hl] using h2.2.2.1,
          by simpa [deleteLoop, hm, hl] using h2.2.2.2.1,
          by simpa [deleteLoop, hm, hl] using h2.2.2.2.2.1, ?_⟩
        intro m
        have h3 := h2.2.2.2.2.2 m
        simp only [deleteLoop, hm, hl, Option.elim] at h3 ⊢
        by_cases hdm : n = m
        · subst hdm
          rw [h3]
          by_cases hrest : ∃ d2 ∈ rest, falsyGet cfg.filesMap d2 = some n
          · simp [List.exists_mem_cons_iff, hrest]
          · simp [List.exists_mem_cons_iff, hrest, hm, hl]
        · have hne : ¬ falsyGet cfg.filesMap d = some m := by
            simp [hm]
            intro he
            exact hdm he
          simpa [List.exists_mem_cons_iff, hne] using h3
      | some fd =>
        have h2 := ih { s with src := eraseFS s.src n }
        refine ⟨by simpa [deleteLoop, hm, hl, hrm n] using h2.1,
          by simpa [deleteLoop, hm, hl, hrm n] using h2.2.1,
          by simpa [deleteLoop, hm, hl, hrm n] using h2.2.2.1,
          by simpa [deleteLoop, hm, hl, hrm n] using h2.2.2.2.1,
          by simpa [deleteLoop, hm, hl, hrm n] using h2.2.2.2.2.1, ?_⟩
        intro m
        have h3 := h2.2.2.2.2.2 m
        simp only [deleteLoop, hm, hl, Option.elim, hrm n, if_neg Bool.false_ne_true] at h3 ⊢
        by_cases hdm : n = m
        · subst hdm
          rw [h3]
          by_cases hrest : ∃ d2 ∈ rest, falsyGet cfg.filesMap d2 = some n
          · simp [List.exists_mem_cons_iff, hrest]
          · simp [List.exists_mem_cons_iff, hrest, hm, lookupFS_eraseFS_self]
        · have hne : ¬ falsyGet cfg.filesMap d = some m := by
            simp [hm]
            intro he
            exact hdm he
          rw [h3, lookupFS_eraseFS_ne s.src n m (fun he => hdm he.symm)]
          simp [List.exists_mem_cons_iff, hne]

/-! Path lemmas for the main workflow. -/

/-- The state reached after a successful compression and transfer of the
file `fn` with contents `fd`: the archive sits in both directories, no email
was attempted and the global flag is still set. -/
def postTransferState (fs0 srv0 : FS) (fn : String) (fd : FileData) : St :=
  ⟨setFS fs0 (zipNameOf fn) (compressedData (zipNameOf fn) fn fd),
   setFS srv0 (zipNameOf fn) (compressedData (zipNameOf fn) fn fd), [], true, 0⟩

theorem runBackup_mapped (cfg : Config) (f : Faults) (day : String) (fs0 srv0 : FS)
    (fn : String) (hmap : falsyGet cfg.filesMap day = some fn) :
    runBackup cfg f day fs0 srv0 =
      finallyBlock f day fn (zipNameOf fn)
        (mainTry cfg f day fn (zipNameOf fn) (initialState fs0 srv0)) := by
  simp [runBackup, hmap]

theorem mainTry_ok_path (cfg : Config) (f : Faults) (day : String) (fs0 srv0 : FS)
    (fn : String) (fd : FileData) (hex : lookupFS fs0 fn = some fd)
    (hc : f.compressFails = false) (hcp : f.copyFails = false) :
    mainTry cfg f day fn (zipNameOf fn) (initialState fs0 srv0) =
      (match delete_next_backups cfg f day cfg.daysToDelete
          (postTransferState fs0 srv0 fn fd) with
       | (s3, DelOutcome.raised) => exceptPath f day s3
       | (s3, DelOutcome.exited) => (s3, some 1)
       | (s3, DelOutcome.ok) => (s3, none)) := by
  simp [mainTry, hex, hc, hcp, postTransferState, initialState]

theorem successNotify_src (f : Faults) (day fn : String) (s : St) (p : Option Nat) :
    (successNotify f day fn s p).src = s.src := by
  by_cases h : s.flag <;> simp [successNotify, sendEmail, h]

theorem finallyBlock_exit_pending (f : Faults) (day fn zn : String) (s : St) :
    (finallyBlock f day fn zn (s, some 1)).exitCode = 1 := by
  cases hl : lookupFS s.src zn with
  | none => by_cases hf : s.flag <;> simp [finallyBlock, hl, successNotify, sendEmail, hf]
  | some fd =>
    by_cases hr : f.removeFails zn
    · simp [finallyBlock, hl, hr]
    · by_cases hf : s.flag <;> simp [finallyBlock, hl, hr, successNotify, sendEmail, hf]

theorem finallyBlock_email_mem (f : Faults) (day fn zn : String) (sp : St × Option Nat)
    (e : EmailMsg) (he : e ∈ sp.1.emails) : e ∈ (finallyBlock f day fn zn sp).emails := by
  obtain ⟨s, p⟩ := sp
  cases hl : lookupFS s.src zn with
  | none =>
    by_cases hf : s.flag <;>
      simp [finallyBlock, hl, successNotify, sendEmail, hf, List.mem_append, he]
  | some fd =>
    by_cases hr : f.removeFails zn
    · simp [finallyBlock, hl, hr, sendEmail, List.mem_append, he]
    · by_cases hf : s.flag <;>
        simp [finallyBlock, hl, hr, successNotify, sendEmail, hf, List.mem_append, he]

/-- The `finally` block either leaves no archive behind, or the removal
itself failed, in which case the run is fatal and reported. -/
theorem finallyBlock_cleanup (f : Faults) (day fn zn : String) (sp : St × Option Nat) :
    lookupFS (finallyBlock f day fn zn sp).src zn = none ∨
      (f.removeFails zn = true ∧ (finallyBlock f day fn zn sp).exitCode = 1 ∧
        subjCleanup day ∈ (finallyBlock f day fn zn sp).emails.map EmailMsg.subject) := by
  obtain ⟨s, p⟩ := sp
  cases hl : lookupFS s.src zn with
  | none =>
    left
    by_cases hf : s.flag <;> simp [finallyBlock, hl, successNotify, sendEmail, hf]
  | some fd =>
    by_cases hr : f.removeFails zn
    · right
      refine ⟨hr, by simp [finallyBlock, hl, hr], ?_⟩
      simp [finallyBlock, hl, hr, sendEmail, List.mem_append]
    · left
      simp [finallyBlock, hl, hr]
      by_cases hf : s.flag <;>
        simp [successNotify, sendEmail, hf, lookupFS_eraseFS_self]

/-- Closed form of a fault-free run that finds a (truthy) mapping and an
existing file for today: compress, transfer, delete the window files, remove
the archive, send one success notification, exit 0. -/
theorem runBackup_noFaults_eq (cfg : Config) (day : String) (fs0 srv0 : FS)
    (fn : String) (fd : FileData) (ws : List String)
    (hmap : falsyGet cfg.filesMap day = some fn)
    (hex : lookupFS fs0 fn = some fd)
    (hws : get_next_days day cfg.daysToDelete = some ws) :
    runBackup cfg noFaults day fs0 srv0 =
      ⟨0,
       eraseFS (deleteLoop cfg noFaults ws (postTransferState fs0 srv0 fn fd)).1.src
         (zipNameOf fn),
       (deleteLoop cfg noFaults ws (postTransferState fs0 srv0 fn fd)).1.server,
       [⟨subjSuccess day, bodySuccess fn, true⟩]⟩ := by
  have hdl := deleteLoop_removeOk cfg noFaults (fun _ => rfl) ws
    (postTransferState fs0 srv0 fn fd)
  have hfl : (deleteLoop cfg noFaults ws (postTransferState fs0 srv0 fn fd)).1.flag = true := by
    simpa [postTransferState] using hdl.2.2.2.1
  have hem : (deleteLoop cfg noFaults ws (postTransferState fs0 srv0 fn fd)).1.emails = [] := by
    simpa [postTransferState] using hdl.2.2.1
  have hrm : noFaults.removeFails (zipNameOf fn) = false := rfl
  have hef : ∀ k, noFaults.emailFails k = false := fun _ => rfl
  rw [runBackup_mapped cfg noFaults day fs0 srv0 fn hmap,
    mainTry_ok_path cfg noFaults day fs0 srv0 fn fd hex rfl rfl]
  simp only [delete_next_backups, hws, Option.elim, hdl.1, Bool.false_eq_true, if_false]
  cases hzl : lookupFS (deleteLoop cfg noFaults ws (postTransferState fs0 srv0 fn fd)).1.src
      (zipNameOf fn) with
  | none =>
    rw [eraseFS_lookup_none _ _ hzl]
    simp [finallyBlock, hzl, successNotify, sendEmail, hfl, hem, hrm, hef]
  | some fd2 =>
    simp [finallyBlock, hzl, successNotify, sendEmail, hfl, hem, hrm, hef]

/-! Concrete fixtures used by witnesses and counterexamples. -/

/-- A weekday mapping covering all 7 weekdays with pairwise distinct names. -/
def mapA : String → Option String := fun d =>
  if d = "Sunday" then some "su.txt" else
  if d = "Monday" then some "mo.txt" else
  if d = "Tuesday" then some "tu.txt" else
  if d = "Wednesday" then some "we.txt" else
  if d = "Thursday" then some "th.txt" else
  if d = "Friday" then some "fr.txt" else
  if d = "Saturday" then some "sa.txt" else none

def cfgA : Config := ⟨"/backup/src", "/backup/srv", mapA, 3⟩

def fsA : FS :=
  [("su.txt", FileData.plain "SU"), ("mo.txt", FileData.plain "MO"),
   ("tu.txt", FileData.plain "TU"), ("we.txt", FileData.plain "WE"),
   ("th.txt", FileData.plain "TH"), ("fr.txt", FileData.plain "FR"),
   ("sa.txt", FileData.plain "SA")]

/-- A mapping covering all 7 weekdays in which Friday is mapped to the name
of the temporary archive of Monday and Saturday shares the name mapped to
Tuesday. -/
def mapC : String → Option String := fun d =>
  if d = "Sunday" then some "su.txt" else
  if d = "Monday" then some "mo.txt" else
  if d = "Tuesday" then some "tu.txt" else
  if d = "Wednesday" then some "we.txt" else
  if d = "Thursday" then some "th.txt" else
  if d = "Friday" then some "mo.zip" else
  if d = "Saturday" then some "tu.txt" else none

def cfgC : Config := ⟨"/backup/src", "/backup/srv", mapC, 3⟩

def fsC : FS :=
  [("su.txt", FileData.plain "SU"), ("mo.txt", FileData.plain "MO"),
   ("tu.txt", FileData.plain "TU"), ("we.txt", FileData.plain "WE"),
   ("th.txt", FileData.plain "TH"), ("mo.zip", FileData.plain "FR"),
   ("sa.txt", FileData.plain "SA")]

/-- Run on which `shutil.copy` raises. -/
def faultsCopy : Faults := { noFaults with copyFails := true }

/-- Run on which `os.remove` raises exactly on the file mapped to Tuesday. -/
def faultsDelTu : Faults := { noFaults with removeFails := fun n => n == "tu.txt" }

/-- Run on which every `os.remove` raises. -/
def faultsRemoveAll : Faults := { noFaults with removeFails := fun _ => true }

/-- Run on which every SMTP send raises. -/
def faultsEmailAll : Faults := { noFaults with emailFails := fun _ => true }

/-! The claims. -/

/-- Claim C1: for every weekday name `W` in the canonical 7-name ordering and
every count `D` with `1 ≤ D ≤ 7` (equivalently `D ∈ List.range 8` with
`1 ≤ D`), `get_next_days W D` returns a list of exactly `D` weekday names,
starting at the canonical successor of `W` and consecutive in canonical order
with modular wraparound, containing `W` exactly when `D = 7`; and in
particular `get_next_days "Saturday" 2 = ["Sunday", "Monday"]`. -/
theorem get_next_days_canonical :
    (∀ W ∈ days_of_week, ∀ D ∈ List.range 8, 1 ≤ D → nextDaysOk W D = true) ∧
      get_next_days "Saturday" 2 = some ["Sunday", "Monday"] := by
  constructor
  · decide
  · decide

/-- Witness for C1 at `W = "Saturday"`, `D = 2`. -/
theorem get_next_days_canonical_witness :
    nextDaysOk "Saturday" 2 = true ∧
      get_next_days "Saturday" 2 = some ["Sunday", "Monday"] :=
  ⟨get_next_days_canonical.1 "Saturday" (by decide) 2 (by decide) (by decide),
   get_next_days_canonical.2⟩

/-- Claim C9: `get_next_days` is only defined on the 7 canonical weekday
names: for any other `day_name` the index lookup fails (Python raises
`ValueError`) for every `days_ahead`, so no list is returned. -/
theorem get_next_days_noncanonical (d : String) (hd : d ∉ days_of_week) (n : Nat) :
    get_next_days d n = none := by
  simp [get_next_days, listIndex_eq_none d days_of_week hd]

/-- Witness for C9 at the non-weekday name `"Funday"`. -/
theorem get_next_days_noncanonical_witness : get_next_days "Funday" 3 = none :=
  get_next_days_noncanonical "Funday" (by decide) 3

/-- Claim C7: when the weekday mapping has no (truthy) entry for today, the
run exits with code 1 after attempting exactly one notification, whose
subject and body both contain the weekday name, and the directories are left
untouched.  (The script exits at line 108, before the `try` statement.) -/
theorem missing_mapping_fatal (cfg : Config) (f : Faults) (day : String)
    (fs0 srv0 : FS) (h : falsyGet cfg.filesMap day = none) :
    runBackup cfg f day fs0 srv0 =
      ⟨1, fs0, srv0, [⟨subjFail day, bodyNoFile day, !(f.emailFails 0)⟩]⟩ := by
  simp [runBackup, h, sendEmail, initialState]

/-- Witness for C7: a mapping with no entry for Monday. -/
theorem missing_mapping_fatal_witness :
    runBackup ⟨"/backup/src", "/backup/srv", fun _ => none, 3⟩ noFaults "Monday" fsA [] =
      ⟨1, fsA, [], [⟨subjFail "Monday", bodyNoFile "Monday", true⟩]⟩ :=
  missing_mapping_fatal ⟨"/backup/src", "/backup/srv", fun _ => none, 3⟩
    noFaults "Monday" fsA [] rfl

/-- Claim C10: during retention deletion, a window day with no (truthy)
mapped file name, or whose mapped file does not exist in the source
directory, is skipped silently: the loop on that day changes nothing — no
notification, no flag change — and continues with the remaining days
unchanged, which the equality of the two loop runs expresses. -/
theorem deletion_skips_missing (cfg : Config) (f : Faults) (d : String)
    (rest : List String) (s : St)
    (h : (falsyGet cfg.filesMap d).elim True (fun n => lookupFS s.src n = none)) :
    deleteLoop cfg f (d :: rest) s = deleteLoop cfg f rest s := by
  cases hm : falsyGet cfg.filesMap d with
  | none => simp [deleteLoop, hm]
  | some n =>
    rw [hm] at h
    simp only [Option.elim] at h
    simp [deleteLoop, hm, h]

/-- Witness for C10: Friday is mapped to `fr.txt`, which is absent from the
source directory below, so the Friday iteration is skipped. -/
theorem deletion_skips_missing_witness :
    deleteLoop cfgA noFaults ["Friday", "Saturday"] (initialState fsC []) =
      deleteLoop cfgA noFaults ["Saturday"] (initialState fsC []) :=
  deletion_skips_missing cfgA noFaults "Friday" ["Saturday"] (initialState fsC [])
    (by exact rfl)

theorem finallyBlock_flagFalse_erase (f : Faults) (day fn zn : String) (s : St)
    (v : FileData) (hfl : s.flag = false) (hzl : lookupFS s.src zn = some v)
    (hrm : f.removeFails zn = false) :
    finallyBlock f day fn zn (s, some 1) = ⟨1, eraseFS s.src zn, s.server, s.emails⟩ := by
  simp [finallyBlock, hzl, hrm, successNotify, hfl]

/-- Counterexample to claim C2.  The claim asserts that after a transfer
failure the retention-deletion step still runs and that the failure does not
itself force a non-zero exit code.  On this concrete run `shutil.copy`
raises: all three files of the retention window existed before the run and
all three still exist after it — the exception jumped over
`delete_next_backups` to the top-level handler — and the process exits with
code 1 because that handler calls `exit(1)`. -/
theorem transfer_failure_cex :
    lookupFS fsA "tu.txt" = some (FileData.plain "TU") ∧
    get_next_days "Monday" cfgA.daysToDelete = some ["Tuesday", "Wednesday", "Thursday"] ∧
    lookupFS (runBackup cfgA faultsCopy "Monday" fsA []).src "tu.txt" =
      some (FileData.plain "TU") ∧
    lookupFS (runBackup cfgA faultsCopy "Monday" fsA []).src "we.txt" =
      some (FileData.plain "WE") ∧
    lookupFS (runBackup cfgA faultsCopy "Monday" fsA []).src "th.txt" =
      some (FileData.plain "TH") ∧
    (runBackup cfgA faultsCopy "Monday" fsA []).exitCode = 1 := by
  decide

/-- Claim C2 as amended: when compression or transfer fails, the exception
is caught by the top-level handler, so the retention-deletion step does NOT
run (every source file other than the temporary archive is untouched and the
file server receives nothing), the cleanup block still removes the archive,
exactly one failure notification is attempted, and the process exits with
code 1. -/
theorem transfer_failure_amended (cfg : Config) (f : Faults) (day : String)
    (fs0 srv0 : FS) (fn : String) (fd : FileData) (m : String)
    (hmap : falsyGet cfg.filesMap day = some fn)
    (hex : lookupFS fs0 fn = some fd)
    (hfail : f.compressFails = true ∨ (f.compressFails = false ∧ f.copyFails = true))
    (hrm : f.removeFails (zipNameOf fn) = false)
    (hm : m ≠ zipNameOf fn) :
    (runBackup cfg f day fs0 srv0).exitCode = 1 ∧
    lookupFS (runBackup cfg f day fs0 srv0).src (zipNameOf fn) = none ∧
    lookupFS (runBackup cfg f day fs0 srv0).src m = lookupFS fs0 m ∧
    (runBackup cfg f day fs0 srv0).server = srv0 ∧
    (runBackup cfg f day fs0 srv0).emails.map (fun e => (e.subject, e.body)) =
      [(subjFail day, bodyExcept)] := by
  have hrun : ∃ v, runBackup cfg f day fs0 srv0 =
      ⟨1, eraseFS (setFS fs0 (zipNameOf fn) v) (zipNameOf fn), srv0,
       [⟨subjFail day, bodyExcept, !(f.emailFails 0)⟩]⟩ := by
    rcases hfail with h1 | ⟨h1, h2⟩
    · refine ⟨FileData.zippedEmpty, ?_⟩
      rw [runBackup_mapped cfg f day fs0 srv0 fn hmap]
      simp [mainTry, hex, h1, exceptPath, initialState, sendEmail, finallyBlock,
        lookupFS_setFS_self, hrm, successNotify]
    · refine ⟨compressedData (zipNameOf fn) fn fd, ?_⟩
      rw [runBackup_mapped cfg f day fs0 srv0 fn hmap]
      simp [mainTry, hex, h1, h2, exceptPath, initialState, sendEmail, finallyBlock,
        lookupFS_setFS_self, hrm, successNotify]
  obtain ⟨v, hv⟩ := hrun
  rw [hv]
  refine ⟨rfl, lookupFS_eraseFS_self _ _, ?_, rfl, by simp⟩
  rw [lookupFS_eraseFS_ne _ _ _ hm, lookupFS_setFS_ne _ _ _ _ hm]

/-- Witness for the amended C2 at a concrete transfer-failure run. -/
theorem transfer_failure_amended_witness :
    (runBackup cfgA faultsCopy "Monday" fsA []).exitCode = 1 ∧
    lookupFS (runBackup cfgA faultsCopy "Monday" fsA []).src (zipNameOf "mo.txt") = none ∧
    lookupFS (runBackup cfgA faultsCopy "Monday" fsA []).src "tu.txt" =
      lookupFS fsA "tu.txt" ∧
    (runBackup cfgA faultsCopy "Monday" fsA []).server = [] ∧
    (runBackup cfgA faultsCopy "Monday" fsA []).emails.map (fun e => (e.subject, e.body)) =
      [(subjFail "Monday", bodyExcept)] :=
  transfer_failure_amended cfgA faultsCopy "Monday" fsA [] "mo.txt" (FileData.plain "MO")
    "tu.txt" (by decide) (by decide) (Or.inr ⟨by decide, by decide⟩) (by decide) (by decide)

/-- Counterexample to claim C4.  The claim asserts that with a retention
window of 3 and a mapping covering all 7 weekdays, a successful run leaves
the files mapped to weekdays outside the window untouched.  In `cfgC` the
mapping covers all 7 weekdays; running on Monday the window is Tuesday,
Wednesday, Thursday, so Friday and Saturday are outside it; yet Friday is
mapped to `mo.zip`, which is exactly the temporary archive name of Monday
(`zipNameOf "mo.txt"`), so the run overwrites it and then removes it during
cleanup, and Saturday is mapped to `tu.txt`, the same name Tuesday is mapped
to, so the window deletion of Tuesday also removes the Saturday file.  Both
existed before the successful (exit-0) run and are absent after it. -/
theorem retention_window_frame_cex :
    cfgC.daysToDelete = 3 ∧
    days_of_week.all (fun d => (falsyGet cfgC.filesMap d).isSome) = true ∧
    get_next_days "Monday" cfgC.daysToDelete = some ["Tuesday", "Wednesday", "Thursday"] ∧
    "Friday" ∉ (["Tuesday", "Wednesday", "Thursday"] : List String) ∧
    "Saturday" ∉ (["Tuesday", "Wednesday", "Thursday"] : List String) ∧
    falsyGet cfgC.filesMap "Friday" = some "mo.zip" ∧
    falsyGet cfgC.filesMap "Saturday" = some "tu.txt" ∧
    zipNameOf "mo.txt" = "mo.zip" ∧
    lookupFS fsC "mo.zip" = some (FileData.plain "FR") ∧
    lookupFS fsC "tu.txt" = some (FileData.plain "TU") ∧
    (runBackup cfgC noFaults "Monday" fsC []).exitCode = 0 ∧
    lookupFS (runBackup cfgC noFaults "Monday" fsC []).src "mo.zip" = none ∧
    lookupFS (runBackup cfgC noFaults "Monday" fsC []).src "tu.txt" = none := by
  decide

/-- Claim C4 as amended: with a retention window of 3, a weekday mapping
covering all 7 weekdays, and a fault-free run on a day whose mapped file
exists, every file mapped to a window day is absent from the source
directory after the run; and a file mapped to a weekday outside the window
is untouched PROVIDED its name differs from the temporary archive name and
from every name mapped to a day inside the window (the provisos forced by
the counterexample). -/
theorem retention_window_frame (cfg : Config) (day : String) (fs0 srv0 : FS)
    (fn : String) (fd : FileData) (ws : List String) (w nw dOut n : String)
    (hN : cfg.daysToDelete = 3)
    (hcover : ∀ d3 ∈ days_of_week, (falsyGet cfg.filesMap d3).isSome = true)
    (hmap : falsyGet cfg.filesMap day = some fn)
    (hex : lookupFS fs0 fn = some fd)
    (hws : get_next_days day cfg.daysToDelete = some ws)
    (hw : w ∈ ws) (hnw : falsyGet cfg.filesMap w = some nw)
    (hd : dOut ∈ days_of_week) (hdws : dOut ∉ ws)
    (hn : falsyGet cfg.filesMap dOut = some n)
    (hnzip : n ≠ zipNameOf fn)
    (hnwin : ∀ w2 ∈ ws, falsyGet cfg.filesMap w2 ≠ some n) :
    (runBackup cfg noFaults day fs0 srv0).exitCode = 0 ∧
    lookupFS (runBackup cfg noFaults day fs0 srv0).src nw = none ∧
    lookupFS (runBackup cfg noFaults day fs0 srv0).src n = lookupFS fs0 n := by
  have hdl := deleteLoop_removeOk cfg noFaults (fun _ => rfl) ws
    (postTransferState fs0 srv0 fn fd)
  rw [runBackup_noFaults_eq cfg day fs0 srv0 fn fd ws hmap hex hws]
  refine ⟨rfl, ?_, ?_⟩
  · by_cases hz : nw = zipNameOf fn
    · subst hz
      exact lookupFS_eraseFS_self _ _
    · rw [lookupFS_eraseFS_ne _ _ _ hz, hdl.2.2.2.2.2 nw, if_pos ⟨w, hw, hnw⟩]
  · rw [lookupFS_eraseFS_ne _ _ _ hnzip, hdl.2.2.2.2.2 n,
      if_neg (fun hc => by obtain ⟨w2, hw2, he⟩ := hc; exact hnwin w2 hw2 he)]
    simp [postTransferState, lookupFS_setFS_ne _ _ _ _ hnzip]

/-- Witness for the amended C4: collision-free mapping `mapA`, run on
Monday; Tuesday (window) loses `tu.txt`, Friday (outside) keeps `fr.txt`. -/
theorem retention_window_frame_witness :
    (runBackup cfgA noFaults "Monday" fsA []).exitCode = 0 ∧
    lookupFS (runBackup cfgA noFaults "Monday" fsA []).src "tu.txt" = none ∧
    lookupFS (runBackup cfgA noFaults "Monday" fsA []).src "fr.txt" = lookupFS fsA "fr.txt" :=
  retention_window_frame cfgA "Monday" fsA [] "mo.txt" (FileData.plain "MO")
    ["Tuesday", "Wednesday", "Thursday"] "Tuesday" "tu.txt" "Friday" "fr.txt"
    rfl (by decide) (by decide) (by decide) (by decide) (by decide) (by decide)
    (by decide) (by decide) (by decide) (by decide) (by decide)

/-- A mapping whose only entry, for Monday, is a source file already named
`*.zip`, so the temporary archive name coincides with the source name. -/
def mapZ : String → Option String := fun d =>
  if d = "Monday" then some "data.zip" else none

def cfgZ : Config := ⟨"/backup/src", "/backup/srv", mapZ, 3⟩

def fsZ : FS := [("data.zip", FileData.plain "DATA")]

/-- Counterexample to claim C6.  The claim quantifies over every valid
existing source file mapped to today, but fails on a source file named
`*.zip`: for `data.zip`, `os.path.splitext` gives stem `data`, so
`zip_file_name` is again `data.zip` and `zip_file_path` equals `file_path`.
`zipfile.ZipFile(zip_file_path, "w")` then truncates the source file before
`zipf.write` reads it, so the archive copied to the file server does not
contain the original bytes of the file; the cleanup block afterwards deletes
`data.zip` — the source file itself — and the run nevertheless exits 0 and
attempts a success notification. -/
theorem success_run_archive_cex :
    zipNameOf "data.zip" = "data.zip" ∧
    falsyGet cfgZ.filesMap "Monday" = some "data.zip" ∧
    lookupFS fsZ "data.zip" = some (FileData.plain "DATA") ∧
    (runBackup cfgZ noFaults "Monday" fsZ []).exitCode = 0 ∧
    subjSuccess "Monday" ∈
      (runBackup cfgZ noFaults "Monday" fsZ []).emails.map EmailMsg.subject ∧
    lookupFS (runBackup cfgZ noFaults "Monday" fsZ []).server "data.zip" ≠
      some (FileData.zipped "data.zip" (bytesOf (FileData.plain "DATA"))) ∧
    lookupFS (runBackup cfgZ noFaults "Monday" fsZ []).src "data.zip" = none := by
  decide

/-- Claim C6 as amended: for a (truthy) mapped file that exists in the
source directory and whose name differs from the derived archive name
`zipNameOf fn` (the proviso the counterexample forces, excluding `*.zip`
sources), a fault-free run exits 0, the file-server directory afterwards
holds, under the archive name, the archive containing exactly that one file
stored under its base name `fn` with its original bytes — the very value the
compression step wrote, so the copy is unmodified — and the temporary
archive is absent from the source directory after the run. -/
theorem success_run_archive (cfg : Config) (day : String) (fs0 srv0 : FS)
    (fn : String) (fd : FileData) (ws : List String)
    (hmap : falsyGet cfg.filesMap day = some fn)
    (hex : lookupFS fs0 fn = some fd)
    (hws : get_next_days day cfg.daysToDelete = some ws)
    (hzf : zipNameOf fn ≠ fn) :
    (runBackup cfg noFaults day fs0 srv0).exitCode = 0 ∧
    lookupFS (runBackup cfg noFaults day fs0 srv0).server (zipNameOf fn) =
      some (FileData.zipped fn (bytesOf fd)) ∧
    lookupFS (runBackup cfg noFaults day fs0 srv0).src (zipNameOf fn) = none := by
  have hdl := deleteLoop_removeOk cfg noFaults (fun _ => rfl) ws
    (postTransferState fs0 srv0 fn fd)
  rw [runBackup_noFaults_eq cfg day fs0 srv0 fn fd ws hmap hex hws]
  refine ⟨rfl, ?_, lookupFS_eraseFS_self _ _⟩
  rw [hdl.2.1]
  simp [postTransferState, lookupFS_setFS_self, compressedData, hzf]

/-- Witness for C6 on the fault-free Monday run over `cfgA`. -/
theorem success_run_archive_witness :
    (runBackup cfgA noFaults "Monday" fsA []).exitCode = 0 ∧
    lookupFS (runBackup cfgA noFaults "Monday" fsA []).server (zipNameOf "mo.txt") =
      some (FileData.zipped "mo.txt" (bytesOf (FileData.plain "MO"))) ∧
    lookupFS (runBackup cfgA noFaults "Monday" fsA []).src (zipNameOf "mo.txt") = none :=
  success_run_archive cfgA "Monday" fsA [] "mo.txt" (FileData.plain "MO")
    ["Tuesday", "Wednesday", "Thursday"] (by decide) (by decide) (by decide) (by decide)

/-- Claim C8: on every path through the main workflow (the mapping for today
is truthy, so the `try`/`finally` statement is entered — whatever happened in
the compress, transfer and deletion steps), the `finally` block attempts the
removal of the temporary archive: afterwards either the archive is gone from
the source directory, or its removal itself failed, and then the run is
fatal (exit code 1) and a cleanup-error notification was attempted. -/
theorem cleanup_always_runs (cfg : Config) (f : Faults) (day : String)
    (fs0 srv0 : FS) (fn : String)
    (hmap : falsyGet cfg.filesMap day = some fn) :
    lookupFS (runBackup cfg f day fs0 srv0).src (zipNameOf fn) = none ∨
      (f.removeFails (zipNameOf fn) = true ∧
        (runBackup cfg f day fs0 srv0).exitCode = 1 ∧
        subjCleanup day ∈ (runBackup cfg f day fs0 srv0).emails.map EmailMsg.subject) := by
  rw [runBackup_mapped cfg f day fs0 srv0 fn hmap]
  exact finallyBlock_cleanup f day fn (zipNameOf fn) _

/-- Witness for C8 on a run whose every `os.remove` raises (retention window
0, so the failure is the cleanup removal itself). -/
theorem cleanup_always_runs_witness :
    lookupFS (runBackup ⟨"/backup/src", "/backup/srv", mapA, 0⟩ faultsRemoveAll
        "Monday" fsA []).src (zipNameOf "mo.txt") = none ∨
      (faultsRemoveAll.removeFails (zipNameOf "mo.txt") = true ∧
        (runBackup ⟨"/backup/src", "/backup/srv", mapA, 0⟩ faultsRemoveAll
            "Monday" fsA []).exitCode = 1 ∧
        subjCleanup "Monday" ∈
          (runBackup ⟨"/backup/src", "/backup/srv", mapA, 0⟩ faultsRemoveAll
              "Monday" fsA []).emails.map EmailMsg.subject) :=
  cleanup_always_runs ⟨"/backup/src", "/backup/srv", mapA, 0⟩ faultsRemoveAll
    "Monday" fsA [] "mo.txt" (by decide)

/-- Claim C5: when the run reaches the retention-deletion loop (mapped file
present, compression and transfer did not raise) and `os.remove` raises on
the file of window day `d` — the days before `d` having been processed
without an exit — then the loop stops at `d` (running it on the full window
equals running it on the window truncated right after `d`, so the days after
`d` are not processed), a deletion-failure notification naming `d` is
attempted, and the process exits with code 1. -/
theorem deletion_failure_fatal (cfg : Config) (f : Faults) (day : String)
    (fs0 srv0 : FS) (fn : String) (fd : FileData)
    (pre : List String) (d : String) (post : List String) (m : String)
    (hmap : falsyGet cfg.filesMap day = some fn)
    (hex : lookupFS fs0 fn = some fd)
    (hc : f.compressFails = false) (hcp : f.copyFails = false)
    (hds : get_next_days day cfg.daysToDelete = some (pre ++ d :: post))
    (hpre : (deleteLoop cfg f pre (postTransferState fs0 srv0 fn fd)).2 = false)
    (hdm : falsyGet cfg.filesMap d = some m)
    (hdex : (lookupFS (deleteLoop cfg f pre
        (postTransferState fs0 srv0 fn fd)).1.src m).isSome = true)
    (hrm : f.removeFails m = true) :
    (runBackup cfg f day fs0 srv0).exitCode = 1 ∧
    subjDelFail d ∈ (runBackup cfg f day fs0 srv0).emails.map EmailMsg.subject ∧
    deleteLoop cfg f (pre ++ d :: post) (postTransferState fs0 srv0 fn fd) =
      deleteLoop cfg f (pre ++ [d]) (postTransferState fs0 srv0 fn fd) := by
  obtain ⟨fd2, hfd2⟩ := Option.isSome_iff_exists.mp hdex
  have hstep : deleteLoop cfg f (d :: post)
        (deleteLoop cfg f pre (postTransferState fs0 srv0 fn fd)).1 =
      (sendEmail f (subjDelFail d) (bodyDelFail (joinPath cfg.sourceDirectory m))
        (deleteLoop cfg f pre (postTransferState fs0 srv0 fn fd)).1, true) := by
    simp [deleteLoop, hdm, hfd2, hrm]
  have hfull : deleteLoop cfg f (pre ++ d :: post) (postTransferState fs0 srv0 fn fd) =
      (sendEmail f (subjDelFail d) (bodyDelFail (joinPath cfg.sourceDirectory m))
        (deleteLoop cfg f pre (postTransferState fs0 srv0 fn fd)).1, true) := by
    rw [deleteLoop_append, hpre]
    simpa using hstep
  have hone : deleteLoop cfg f (pre ++ [d]) (postTransferState fs0 srv0 fn fd) =
      (sendEmail f (subjDelFail d) (bodyDelFail (joinPath cfg.sourceDirectory m))
        (deleteLoop cfg f pre (postTransferState fs0 srv0 fn fd)).1, true) := by
    rw [deleteLoop_append, hpre]
    simp [deleteLoop, hdm, hfd2, hrm]
  have hrun : runBackup cfg f day fs0 srv0 =
      finallyBlock f day fn (zipNameOf fn)
        (sendEmail f (subjDelFail d) (bodyDelFail (joinPath cfg.sourceDirectory m))
          (deleteLoop cfg f pre (postTransferState fs0 srv0 fn fd)).1, some 1) := by
    rw [runBackup_mapped cfg f day fs0 srv0 fn hmap,
      mainTry_ok_path cfg f day fs0 srv0 fn fd hex hc hcp]
    simp [delete_next_backups, hds, hfull]
  refine ⟨?_, ?_, hfull.trans hone.symm⟩
  · rw [hrun]
    exact finallyBlock_exit_pending f day fn (zipNameOf fn) _
  · rw [hrun]
    have he : (⟨subjDelFail d, bodyDelFail (joinPath cfg.sourceDirectory m),
        !(f.emailFails
          (deleteLoop cfg f pre (postTransferState fs0 srv0 fn fd)).1.ctr)⟩ : EmailMsg) ∈
        (finallyBlock f day fn (zipNameOf fn)
          (sendEmail f (subjDelFail d) (bodyDelFail (joinPath cfg.sourceDirectory m))
            (deleteLoop cfg f pre (postTransferState fs0 srv0 fn fd)).1, some 1)).emails :=
      finallyBlock_email_mem _ _ _ _ _ _ (by simp [sendEmail])
    exact List.mem_map_of_mem EmailMsg.subject he

/-- Witness for C5: `os.remove` raises on `tu.txt`, the file of the first
window day of the Monday run. -/
theorem deletion_failure_fatal_witness :
    (runBackup cfgA faultsDelTu "Monday" fsA []).exitCode = 1 ∧
    subjDelFail "Tuesday" ∈
      (runBackup cfgA faultsDelTu "Monday" fsA []).emails.map EmailMsg.subject ∧
    deleteLoop cfgA faultsDelTu ([] ++ "Tuesday" :: ["Wednesday", "Thursday"])
        (postTransferState fsA [] "mo.txt" (FileData.plain "MO")) =
      deleteLoop cfgA faultsDelTu ([] ++ ["Tuesday"])
        (postTransferState fsA [] "mo.txt" (FileData.plain "MO")) :=
  deletion_failure_fatal cfgA faultsDelTu "Monday" fsA [] "mo.txt" (FileData.plain "MO")
    [] "Tuesday" ["Wednesday", "Thursday"] "tu.txt" (by decide) (by decide) (by decide)
    (by decide) (by decide) (by decide) (by decide) (by decide) (by decide)

/-! Machinery for claim C3: whether an SMTP send raises is invisible to
everything except the `delivered` flag of the attempted message, because the
`process_success = False` in the handler of `send_email` is function-local. -/

/-- What a notification attempt looks like ignoring delivery: subject and
body. -/
def emailView (e : EmailMsg) : String × String := (e.subject, e.body)

/-- Two run states that agree on everything except the delivery outcomes of
the attempted notifications. -/
def StRel (s t : St) : Prop :=
  s.src = t.src ∧ s.server = t.server ∧
    s.emails.map emailView = t.emails.map emailView ∧ s.flag = t.flag ∧ s.ctr = t.ctr

/-- Two run results that agree on exit code, both directories and the
sequence of attempted notifications (subject and body). -/
def RunRel (r q : RunResult) : Prop :=
  r.exitCode = q.exitCode ∧ r.src = q.src ∧ r.server = q.server ∧
    r.emails.map emailView = q.emails.map emailView

theorem StRel_sendEmail (f g : Faults) (a b : String) (s t : St) (h : StRel s t) :
    StRel (sendEmail f a b s) (sendEmail g a b t) := by
  obtain ⟨h1, h2, h3, h4, h5⟩ := h
  refine ⟨h1, h2, ?_, h4, by simp [sendEmail, h5]⟩
  simp [sendEmail, emailView, h3]

theorem StRel_exceptPath (f g : Faults) (day : String) (s t : St) (h : StRel s t) :
    StRel (exceptPath f day s).1 (exceptPath g day t).1 ∧
      (exceptPath f day s).2 = (exceptPath g day t).2 :=
  ⟨StRel_sendEmail f g _ _ _ _ ⟨h.1, h.2.1, h.2.2.1, rfl, h.2.2.2.2⟩, rfl⟩

theorem StRel_deleteLoop (cfg : Config) (f g : Faults)
    (hrm : ∀ n, f.removeFails n = g.removeFails n) (days : List String) :
    ∀ s t, StRel s t →
      StRel (deleteLoop cfg f days s).1 (deleteLoop cfg g days t).1 ∧
        (deleteLoop cfg f days s).2 = (deleteLoop cfg g days t).2 := by
  induction days with
  | nil => intro s t h; exact ⟨h, rfl⟩
  | cons d rest ih =>
    intro s t h
    cases hm : falsyGet cfg.filesMap d with
    | none =>
      have h2 := ih s t h
      exact ⟨by simpa [deleteLoop, hm] using h2.1, by simpa [deleteLoop, hm] using h2.2⟩
    | some n =>
      have hsrc : s.src = t.src := h.1
      cases hl : lookupFS s.src n with
      | none =>
        have hl2 : lookupFS t.src n = none := by rw [← hsrc]; exact hl
        have h2 := ih s t h
        exact ⟨by simpa [deleteLoop, hm, hl, hl2] using h2.1,
          by simpa [deleteLoop, hm, hl, hl2] using h2.2⟩
      | some fd =>
        have hl2 : lookupFS t.src n = some fd := by rw [← hsrc]; exact hl
        by_cases hr : f.removeFails n = true
        · have hr2 : g.removeFails n = true := by rw [← hrm n]; exact hr
          refine ⟨?_, by simp [deleteLoop, hm, hl, hl2, hr, hr2]⟩
          simp only [deleteLoop, hm, hl, hl2, Option.elim, hr, hr2, if_true]
          exact StRel_sendEmail f g _ _ s t h
        · have hrf : f.removeFails n = false := by simpa using hr
          have hr2 : g.removeFails n = false := by rw [← hrm n]; exact hrf
          have h2 := ih { s with src := eraseFS s.src n } { t with src := eraseFS t.src n }
            ⟨by simp [hsrc], h.2.1, h.2.2.1, h.2.2.2.1, h.2.2.2.2⟩
          exact ⟨by simpa [deleteLoop, hm, hl, hl2, hrf, hr2] using h2.1,
            by simpa [deleteLoop, hm, hl, hl2, hrf, hr2] using h2.2⟩

theorem StRel_mainTry (cfg : Config) (f g : Faults) (day fn zn : String) (s t : St)
    (h : StRel s t) (hc : f.compressFails = g.compressFails)
    (hcp : f.copyFails = g.copyFails)
    (hrm : ∀ n, f.removeFails n = g.removeFails n) :
    StRel (mainTry cfg f day fn zn s).1 (mainTry cfg g day fn zn t).1 ∧
      (mainTry cfg f day fn zn s).2 = (mainTry cfg g day fn zn t).2 := by
  have hsrc : s.src = t.src := h.1
  cases hl : lookupFS s.src fn with
  | none =>
    have hl2 : lookupFS t.src fn = none := by rw [← hsrc]; exact hl
    simp only [mainTry, hl, hl2, Option.elim]
    exact ⟨StRel_sendEmail f g _ _ _ _ ⟨h.1, h.2.1, h.2.2.1, rfl, h.2.2.2.2⟩, by trivial⟩
  | some fd =>
    have hl2 : lookupFS t.src fn = some fd := by rw [← hsrc]; exact hl
    by_cases h1 : f.compressFails = true
    · have h1g : g.compressFails = true := by rw [← hc]; exact h1
      simp only [mainTry, hl, hl2, Option.elim, h1, h1g, if_true]
      exact StRel_exceptPath f g day _ _ ⟨by simp [hsrc], h.2.1, h.2.2.1, h.2.2.2.1, h.2.2.2.2⟩
    · have h1f : f.compressFails = false := by simpa using h1
      have h1g : g.compressFails = false := by rw [← hc]; exact h1f
      by_cases h2 : f.copyFails = true
      · have h2g : g.copyFails = true := by rw [← hcp]; exact h2
        simp only [mainTry, hl, hl2, Option.elim, h1f, h1g, h2, h2g, Bool.false_eq_true,
          if_false, if_true]
        exact StRel_exceptPath f g day _ _
          ⟨by simp [hsrc], h.2.1, h.2.2.1, h.2.2.2.1, h.2.2.2.2⟩
      · have h2f : f.copyFails = false := by simpa using h2
        have h2g : g.copyFails = false := by rw [← hcp]; exact h2f
        have hpair : StRel
            ⟨setFS s.src zn (compressedData zn fn fd),
             setFS s.server zn (compressedData zn fn fd), s.emails, s.flag, s.ctr⟩
            ⟨setFS t.src zn (compressedData zn fn fd),
             setFS t.server zn (compressedData zn fn fd), t.emails, t.flag, t.ctr⟩ :=
          ⟨by simp [hsrc], by simp [h.2.1], h.2.2.1, h.2.2.2.1, h.2.2.2.2⟩
        simp only [mainTry, hl, hl2, Option.elim, h1f, h1g, h2f, h2g, Bool.false_eq_true,
          if_false]
        cases hgd : get_next_days day cfg.daysToDelete with
        | none =>
          simp only [delete_next_backups, hgd, Option.elim]
          exact StRel_exceptPath f g day _ _ hpair
        | some ds =>
          have hdl := StRel_deleteLoop cfg f g hrm ds _ _ hpair
          simp only [delete_next_backups, hgd, Option.elim]
          cases hfr : deleteLoop cfg f ds
              (⟨setFS s.src zn (compressedData zn fn fd),
                setFS s.server zn (compressedData zn fn fd),
                s.emails, s.flag, s.ctr⟩ : St) with
          | mk sf ef =>
            cases hgr : deleteLoop cfg g ds
                (⟨setFS t.src zn (compressedData zn fn fd),
                  setFS t.server zn (compressedData zn fn fd),
                  t.emails, t.flag, t.ctr⟩ : St) with
            | mk sg eg =>
              rw [hfr, hgr] at hdl
              have hdl1 : StRel sf sg := hdl.1
              have hdl2 : ef = eg := hdl.2
              subst hdl2
              cases ef
              · exact ⟨hdl1, rfl⟩
              · exact ⟨hdl1, rfl⟩

theorem RunRel_successNotify (f g : Faults) (day fn : String) (s t : St)
    (p : Option Nat) (h : StRel s t) :
    RunRel (successNotify f day fn s p) (successNotify g day fn t p) := by
  by_cases hf : s.flag = true
  · have hf2 : t.flag = true := by rw [← h.2.2.2.1]; exact hf
    have hse := StRel_sendEmail f g (subjSuccess day) (bodySuccess fn) s t h
    simp only [successNotify, hf, hf2, if_true]
    exact ⟨rfl, hse.1, hse.2.1, hse.2.2.1⟩
  · have hff : s.flag = false := by simpa using hf
    have hf2 : t.flag = false := by rw [← h.2.2.2.1]; exact hff
    simp only [successNotify, hff, hf2, Bool.false_eq_true, if_false]
    exact ⟨rfl, h.1, h.2.1, h.2.2.1⟩

theorem RunRel_finallyBlock (f g : Faults) (day fn zn : String)
    (hrm : ∀ n, f.removeFails n = g.removeFails n)
    (sp tq : St × Option Nat) (h : StRel sp.1 tq.1) (hp : sp.2 = tq.2) :
    RunRel (finallyBlock f day fn zn sp) (finallyBlock g day fn zn tq) := by
  obtain ⟨s, p⟩ := sp
  obtain ⟨t, q⟩ := tq
  simp only at h hp
  subst hp
  have hsrc : s.src = t.src := h.1
  cases hl : lookupFS s.src zn with
  | none =>
    have hl2 : lookupFS t.src zn = none := by rw [← hsrc]; exact hl
    simp only [finallyBlock, hl, hl2, Option.elim]
    exact RunRel_successNotify f g day fn s t p h
  | some fd =>
    have hl2 : lookupFS t.src zn = some fd := by rw [← hsrc]; exact hl
    by_cases hr : f.removeFails zn = true
    · have hr2 : g.removeFails zn = true := by rw [← hrm zn]; exact hr
      simp only [finallyBlock, hl, hl2, Option.elim, hr, hr2, if_true]
      have hse := StRel_sendEmail f g (subjCleanup day) bodyCleanup
        { s with flag := false } { t with flag := false }
        ⟨h.1, h.2.1, h.2.2.1, rfl, h.2.2.2.2⟩
      exact ⟨rfl, hse.1, hse.2.1, hse.2.2.1⟩
    · have hrf : f.removeFails zn = false := by simpa using hr
      have hr2 : g.removeFails zn = false := by rw [← hrm zn]; exact hrf
      simp only [finallyBlock, hl, hl2, Option.elim, hrf, hr2, Bool.false_eq_true, if_false]
      exact RunRel_successNotify f g day fn _ _ p
        ⟨by simp [hsrc], h.2.1, h.2.2.1, h.2.2.2.1, h.2.2.2.2⟩

/-- Claim C3: a failure inside `send_email` is invisible to the rest of the
run.  The `process_success = False` in its handler is a function-local
binding, so it never reaches the module scope; consequently any two runs
whose faults agree on compression, copying and removal — and may differ
arbitrarily in which SMTP sends raise — have the same exit code, the same
final directories, and attempt the same sequence of notifications, including
the same final success-notification decision.  The run behaves exactly as if
the email failure had not set the flag. -/
theorem email_failure_isolated (cfg : Config) (day : String) (fs0 srv0 : FS)
    (f g : Faults) (hc : f.compressFails = g.compressFails)
    (hcp : f.copyFails = g.copyFails)
    (hrm : ∀ n, f.removeFails n = g.removeFails n) :
    RunRel (runBackup cfg f day fs0 srv0) (runBackup cfg g day fs0 srv0) := by
  cases hm : falsyGet cfg.filesMap day with
  | none =>
    simp only [runBackup, hm, Option.elim]
    have hse := StRel_sendEmail f g (subjFail day) (bodyNoFile day)
      { initialState fs0 srv0 with flag := false }
      { initialState fs0 srv0 with flag := false } ⟨rfl, rfl, rfl, rfl, rfl⟩
    exact ⟨rfl, hse.1, hse.2.1, hse.2.2.1⟩
  | some fn =>
    simp only [runBackup, hm, Option.elim]
    have hmt := StRel_mainTry cfg f g day fn (zipNameOf fn)
      (initialState fs0 srv0) (initialState fs0 srv0) ⟨rfl, rfl, rfl, rfl, rfl⟩ hc hcp hrm
    exact RunRel_finallyBlock f g day fn (zipNameOf fn) hrm _ _ hmt.1 hmt.2

/-- Witness for C3: the run on which every SMTP send raises matches the
fault-free run in exit code, directories and attempted notifications. -/
theorem email_failure_isolated_witness :
    RunRel (runBackup cfgA faultsEmailAll "Monday" fsA [])
      (runBackup cfgA noFaults "Monday" fsA []) :=
  email_failure_isolated cfgA "Monday" fsA [] faultsEmailAll noFaults rfl rfl (fun _ => rfl)

end BackupRep
